import Mathlib

/-!
Shallow embedding of `src/catchup/ApplyBucketsWork.cpp` (stellar-core).

The engine reconstructs a multi-level, content-addressed bucket list to a
target historical state.  The code under `src/` is embedded faithfully;
collaborators that are declared elsewhere in the repository (crypto/Hex,
Bucket, BucketApplicator, BucketList sizing, BucketManager::assumeState and
the generic Work driver) are modelled from the spec, as marked on each
definition.
-/

namespace Stellar

/-- Binary hash: a sequence of bytes (32 bytes for a 256-bit hash). -/
abbrev Bin : Type := List Nat

/-- Modelled from the spec: `isZero` (crypto/SecretKey.h, not under src/)
tests whether every byte of a binary hash is zero; the all-zero value is the
reserved "empty bucket" sentinel. -/
def isZero (b : Bin) : Bool := b.all (fun x => x == 0)

/-- Modelled from the spec: value of one hex digit, accepting both letter
cases (crypto/Hex.cpp is not under src/; the spec describes hashes as
"externally represented as hex text"). -/
def hexVal (c : Char) : Option Nat :=
  let n := c.toNat
  if 48 ≤ n && n ≤ 57 then some (n - 48)
  else if 97 ≤ n && n ≤ 102 then some (n - 87)
  else if 65 ≤ n && n ≤ 70 then some (n - 55)
  else none

/-- Modelled from the spec: decode a list of hex characters, two per byte;
fails on an odd length or a non-hex character. -/
def hexPairsToBytes : List Char → Option (List Nat)
  | [] => some []
  | [_] => none
  | c1 :: c2 :: rest =>
    match hexVal c1, hexVal c2, hexPairsToBytes rest with
    | some h, some l, some tail => some ((16 * h + l) :: tail)
    | _, _, _ => none

/-- Modelled from the spec: `hexToBin256` (crypto/Hex.h, not under src/)
decodes a 64-character hex string to a 32-byte binary hash; any other input
is rejected (the source throws). -/
def hexToBin256 (s : String) : Option Bin :=
  if s.length = 64 then hexPairsToBytes s.data else none

/-- Modelled from the spec: canonical hex character of a nibble (the source
renders lowercase). -/
def nibbleChar (n : Nat) : Char :=
  if n < 10 then Char.ofNat (48 + n) else Char.ofNat (97 + (n - 10))

/-- Modelled from the spec: render one byte as two lowercase hex characters. -/
def byteToHex (b : Nat) : List Char :=
  [nibbleChar (b / 16 % 16), nibbleChar (b % 16)]

/-- Modelled from the spec: `binToHex` (crypto/Hex.h, not under src/) renders
a binary hash as canonical lowercase hex text. -/
def binToHex (bs : Bin) : String :=
  String.mk (List.flatten (bs.map byteToHex))

/-- The all-zero 256-bit hash. -/
def zeroHash : Bin := List.replicate 32 0

/-- Modelled from the spec: a Bucket is an immutable content-addressed
collection of ledger entries.  Only its hash and the number of bounded
application chunks its contents occupy are relevant to the engine. -/
structure Bucket where
  hash : Bin
  nChunks : Nat
deriving Repr, DecidableEq, Inhabited

/-- Modelled from the spec: a default-constructed `Bucket()` is the canonical
empty bucket: all-zero hash, nothing to apply. -/
def Bucket.empty : Bucket := { hash := zeroHash, nChunks := 0 }

/-- Modelled from the spec: a BucketLevel holds exactly one curr and one snap
Bucket reference (bucket/BucketList.h, not under src/). -/
structure BucketLevel where
  curr : Bucket
  snap : Bucket
deriving Repr, DecidableEq, Inhabited

/-- Modelled from the spec: one target-state entry, a (curr, snap) pair of
hash-hex strings (history/HistoryArchive.h, not under src/). -/
structure HistoryStateBucket where
  curr : String
  snap : String
deriving Repr, DecidableEq, Inhabited

/-- Modelled from the spec: the target state description — an ordered
sequence of per-level hash pairs. -/
structure HistoryArchiveState where
  currentBuckets : List HistoryStateBucket
deriving Repr, DecidableEq, Inhabited

/-- Modelled from the spec: a BucketApplicator is a resumable cursor that
applies a bounded chunk of its bucket's entries per `advance` invocation and
is boolean-truthy while incomplete (bucket/BucketApplicator.h, not under
src/).  `mRemaining` counts the chunks still to apply. -/
structure BucketApplicator where
  mRemaining : Nat
deriving Repr, DecidableEq, Inhabited

/-- Modelled from the spec: `BucketApplicator::operator bool` — true while
the cursor still has remaining work. -/
def applAlive : Option BucketApplicator → Bool
  | some a => 0 < a.mRemaining
  | none => false

/-- Modelled from the spec: a fresh applicator for a bucket has the bucket's
whole content ahead of it. -/
def mkApplicator (b : Bucket) : BucketApplicator := { mRemaining := b.nChunks }

/-- The external world visible to the engine: the live BucketList, the
persistent bucket store (keyed by binary hash), the ledger database
(abstracted to a count of applied chunks) and the authoritative head
installed on completion. -/
structure AppState where
  bucketList : List BucketLevel
  store : List (Bin × Bucket)
  db : Nat
  head : Option HistoryArchiveState
deriving Repr, DecidableEq, Inhabited

/-- Modelled from the spec: persistent-store lookup
(`BucketManager::getBucketByHash`, not under src/), addressed by binary
hash; absent hashes yield nothing. -/
def lookupStore : List (Bin × Bucket) → Bin → Option Bucket
  | [], _ => none
  | (k, b) :: rest, h => if k = h then some b else lookupStore rest h

/-- Pool lookup: `std::map<std::string, shared_ptr<Bucket>>::find`, keyed by
the exact hex string. -/
def lookupPool : List (String × Bucket) → String → Option Bucket
  | [], _ => none
  | (k, b) :: rest, h => if k = h then some b else lookupPool rest h

/-- Errors reported by bucket resolution: the source's `hexToBin256` throws
on malformed hex, and `assert(b)` aborts when a referenced non-zero hash is
in neither the pool nor the store (the spec's MissingBucketError). -/
inductive BucketError where
  | badHex
  | missingBucket
deriving Repr, DecidableEq

/-- The engine state: `ApplyBucketsWork`'s member fields, with the three
metrics meters as event counters. -/
structure ApplyBucketsWork where
  mBuckets : List (String × Bucket)
  mApplyState : HistoryArchiveState
  mApplying : Bool
  mLevel : Nat
  mSnapBucket : Option Bucket
  mCurrBucket : Option Bucket
  mSnapApplicator : Option BucketApplicator
  mCurrApplicator : Option BucketApplicator
  mBucketApplyStart : Nat
  mBucketApplySuccess : Nat
  mBucketApplyFailure : Nat
deriving Repr, DecidableEq, Inhabited

/-- The constructor `ApplyBucketsWork::ApplyBucketsWork`: takes the pool and
the target state, starts not-applying at the coarsest level.  `kNumLevels`
stands for `BucketList::kNumLevels` (a compile-time constant of a header not
under src/; the spec fixes it only as "exactly N levels"). -/
def mkApplyBucketsWork (kNumLevels : Nat) (buckets : List (String × Bucket))
    (applyState : HistoryArchiveState) : ApplyBucketsWork :=
  { mBuckets := buckets
    mApplyState := applyState
    mApplying := false
    mLevel := kNumLevels - 1
    mSnapBucket := none
    mCurrBucket := none
    mSnapApplicator := none
    mCurrApplicator := none
    mBucketApplyStart := 0
    mBucketApplySuccess := 0
    mBucketApplyFailure := 0 }

/-- Resolution logic of `ApplyBucketsWork::getBucket`, over an explicit
pool: the all-zero hash yields a fresh empty Bucket; otherwise the pool is
consulted first, then the persistent store; a hash found in neither aborts
(`assert(b)`). -/
def resolveBucket (pool : List (String × Bucket)) (store : List (Bin × Bucket))
    (hash : String) : Except BucketError Bucket :=
  match hexToBin256 hash with
  | none => .error .badHex
  | some bin =>
    if isZero bin then
      .ok Bucket.empty
    else
      match lookupPool pool hash with
      | some b => .ok b
      | none =>
        match lookupStore store bin with
        | some b => .ok b
        | none => .error .missingBucket

/-- `ApplyBucketsWork::getBucket`: resolution against the member pool
`mBuckets`. -/
def ApplyBucketsWork.getBucket (w : ApplyBucketsWork) (store : List (Bin × Bucket))
    (hash : String) : Except BucketError Bucket :=
  resolveBucket w.mBuckets store hash

/-- `ApplyBucketsWork::onReset`: cursor back to the coarsest level, cascade
flag cleared, in-flight buckets and applicators dropped.  The world state is
passed through untouched — the hook never mutates the live BucketList. -/
def ApplyBucketsWork.onReset (kNumLevels : Nat) (app : AppState)
    (w : ApplyBucketsWork) : AppState × ApplyBucketsWork :=
  (app,
   { w with
     mLevel := kNumLevels - 1
     mApplying := false
     mSnapBucket := none
     mCurrBucket := none
     mSnapApplicator := none
     mCurrApplicator := none })

/-- `ApplyBucketsWork::onStart`: compare the live level's snap and curr
hashes (rendered to hex) against the target pair; the sticky `mApplying`
flag or a snap mismatch resolves the target snap bucket and creates its
applicator, and the same rule — with the possibly just-set flag — applies to
curr.  Each triggered side marks one `bucket-apply.start` event.  Resolution
failure propagates (the source aborts). -/
def ApplyBucketsWork.onStart (app : AppState) (w : ApplyBucketsWork) :
    Except BucketError (AppState × ApplyBucketsWork) :=
  let level := app.bucketList.getD w.mLevel default
  let i := w.mApplyState.currentBuckets.getD w.mLevel default
  let snapStep : Except BucketError ApplyBucketsWork :=
    if w.mApplying || i.snap != binToHex level.snap.hash then
      match w.getBucket app.store i.snap with
      | .error e => .error e
      | .ok b =>
        .ok { w with
              mSnapBucket := some b
              mSnapApplicator := some (mkApplicator b)
              mApplying := true
              mBucketApplyStart := w.mBucketApplyStart + 1 }
    else
      .ok w
  match snapStep with
  | .error e => .error e
  | .ok w1 =>
    if w1.mApplying || i.curr != binToHex level.curr.hash then
      match w1.getBucket app.store i.curr with
      | .error e => .error e
      | .ok b =>
        .ok (app,
             { w1 with
               mCurrBucket := some b
               mCurrApplicator := some (mkApplicator b)
               mApplying := true
               mBucketApplyStart := w1.mBucketApplyStart + 1 })
    else
      .ok (app, w1)

/-- One `advance` of an applicator: apply one bounded chunk. -/
def advanceAppl (a : BucketApplicator) : BucketApplicator :=
  { a with mRemaining := a.mRemaining - 1 }

/-- `ApplyBucketsWork::onRun`: advance the snap applicator by one chunk while
it has remaining work, else the curr applicator; each chunk applied writes
one unit into the ledger database.  The live BucketList is never touched. -/
def ApplyBucketsWork.onRun (app : AppState) (w : ApplyBucketsWork) :
    AppState × ApplyBucketsWork :=
  if applAlive w.mSnapApplicator then
    ({ app with db := app.db + 1 },
     { w with mSnapApplicator := w.mSnapApplicator.map advanceAppl })
  else if applAlive w.mCurrApplicator then
    ({ app with db := app.db + 1 },
     { w with mCurrApplicator := w.mCurrApplicator.map advanceAppl })
  else
    (app, w)

/-- Result state of the end-of-level evaluation: `WORK_RUNNING`,
`WORK_PENDING` or `WORK_SUCCESS`. -/
inductive WorkState where
  | workRunning
  | workPending
  | workSuccess
deriving Repr, DecidableEq

/-- `ApplyBucketsWork::onSuccess`: while either applicator still has work,
report `WORK_RUNNING` and change nothing.  Otherwise commit each resolved
bucket into the live level (marking one `bucket-apply.success` event per
committed side), drop the in-flight state, and either step to the next finer
level (`WORK_PENDING`) or, at level 0, install the target state as the
authoritative head (`BucketManager::assumeState`, modelled from the spec as
head installation) and report `WORK_SUCCESS`. -/
def ApplyBucketsWork.onSuccess (app : AppState) (w : ApplyBucketsWork) :
    AppState × ApplyBucketsWork × WorkState :=
  if applAlive w.mSnapApplicator || applAlive w.mCurrApplicator then
    (app, w, .workRunning)
  else
    let level := app.bucketList.getD w.mLevel default
    let level1 :=
      match w.mSnapBucket with
      | some b => { level with snap := b }
      | none => level
    let level2 :=
      match w.mCurrBucket with
      | some b => { level1 with curr := b }
      | none => level1
    let s1 : Nat := match w.mSnapBucket with | some _ => 1 | none => 0
    let s2 : Nat := match w.mCurrBucket with | some _ => 1 | none => 0
    let app1 := { app with bucketList := app.bucketList.set w.mLevel level2 }
    let w1 := { w with
                mSnapBucket := none
                mCurrBucket := none
                mSnapApplicator := none
                mCurrApplicator := none
                mBucketApplySuccess := w.mBucketApplySuccess + s1 + s2 }
    if w1.mLevel ≠ 0 then
      (app1, { w1 with mLevel := w1.mLevel - 1 }, .workPending)
    else
      ({ app1 with head := some w1.mApplyState }, w1, .workSuccess)

/-- `ApplyBucketsWork::onFailureRetry`: mark a `bucket-apply.failure` event
and delegate retry policy to the generic framework. -/
def ApplyBucketsWork.onFailureRetry (w : ApplyBucketsWork) : ApplyBucketsWork :=
  { w with mBucketApplyFailure := w.mBucketApplyFailure + 1 }

/-- `ApplyBucketsWork::onFailureRaise`: mark a `bucket-apply.failure` event
and raise the failure outward. -/
def ApplyBucketsWork.onFailureRaise (w : ApplyBucketsWork) : ApplyBucketsWork :=
  { w with mBucketApplyFailure := w.mBucketApplyFailure + 1 }

/-- Chunks still pending across the two in-flight applicators. -/
def pendingChunks (w : ApplyBucketsWork) : Nat :=
  (match w.mSnapApplicator with | some a => a.mRemaining | none => 0) +
  (match w.mCurrApplicator with | some a => a.mRemaining | none => 0)

/-- Outcome of a whole catch-up run, as seen by the external driver. -/
inductive RunResult where
  | done (app : AppState) (w : ApplyBucketsWork)
  | err (e : BucketError)
  | outOfFuel
deriving Repr, DecidableEq

/-- Modelled from the spec: the generic task driver's inner loop — invoke the
step hook, then evaluate success; keep stepping while the evaluation reports
`WORK_RUNNING`.  Fuel bounds the loop; the callers supply enough for the
pending chunks. -/
def runLevelSteps : Nat → AppState → ApplyBucketsWork →
    AppState × ApplyBucketsWork × WorkState
  | 0, app, w => (app, w, .workRunning)
  | n + 1, app, w =>
    let (app1, w1) := w.onRun app
    match w1.onSuccess app1 with
    | (app2, w2, .workRunning) => runLevelSteps n app2 w2
    | r => r

/-- Modelled from the spec: the generic task driver's outer loop — invoke the
start-of-level hook, run steps until the evaluation leaves `WORK_RUNNING`,
and on `WORK_PENDING` restart the start-of-level phase (for the decremented
cursor).  Outer fuel bounds the number of level cycles. -/
def runFrom : Nat → AppState → ApplyBucketsWork → RunResult
  | 0, _, _ => .outOfFuel
  | n + 1, app, w =>
    match w.onStart app with
    | .error e => .err e
    | .ok (app1, w1) =>
      match runLevelSteps (pendingChunks w1 + 1) app1 w1 with
      | (app2, w2, .workPending) => runFrom n app2 w2
      | (app2, w2, .workSuccess) => .done app2 w2
      | (_, _, .workRunning) => .outOfFuel

/-- A whole catch-up run from the engine's current cursor: one outer cycle
per remaining level. -/
def runWork (app : AppState) (w : ApplyBucketsWork) : RunResult :=
  runFrom (w.mLevel + 1) app w

/-- An applicator with its remaining work consumed. -/
def exhaustAppl : Option BucketApplicator → Option BucketApplicator :=
  Option.map (fun _ => { mRemaining := 0 })

/-- The engine state after both in-flight applicators have been stepped to
exhaustion. -/
def exhaust (w : ApplyBucketsWork) : ApplyBucketsWork :=
  { w with
    mSnapApplicator := exhaustAppl w.mSnapApplicator
    mCurrApplicator := exhaustAppl w.mCurrApplicator }

/-- One whole level cycle collapsed: start the level, then evaluate success
on the exhausted engine, with the pending chunks accounted to the database.
`runFrom` computes exactly this per outer iteration. -/
def cycleResult (app : AppState) (w : ApplyBucketsWork) :
    Except BucketError (AppState × ApplyBucketsWork × WorkState) :=
  match w.onStart app with
  | .error e => .error e
  | .ok (app1, w1) =>
    .ok (ApplyBucketsWork.onSuccess { app1 with db := app1.db + pendingChunks w1 }
          (exhaust w1))

/-- Concrete scenario data: a content-addressed bucket whose 32-byte hash
repeats one byte value. -/
def scnBucket (h n : Nat) : Bucket := { hash := List.replicate 32 h, nChunks := n }

/-- Canonical hex text of a repeated-byte hash. -/
def scnHex (h : Nat) : String := binToHex (List.replicate 32 h)

/-- A three-level live bucket list (index 0 finest, index 2 coarsest). -/
def scnLevels : List BucketLevel :=
  [{ curr := scnBucket 17 1, snap := scnBucket 34 1 },
   { curr := scnBucket 51 1, snap := scnBucket 68 2 },
   { curr := scnBucket 85 1, snap := scnBucket 102 1 }]

/-- A persistent store holding every live bucket, keyed by binary hash. -/
def scnStore : List (Bin × Bucket) :=
  [(List.replicate 32 17, scnBucket 17 1),
   (List.replicate 32 34, scnBucket 34 1),
   (List.replicate 32 51, scnBucket 51 1),
   (List.replicate 32 68, scnBucket 68 2),
   (List.replicate 32 85, scnBucket 85 1),
   (List.replicate 32 102, scnBucket 102 1)]

/-- A caller-supplied pool holding the one freshly downloaded bucket. -/
def scnPool : List (String × Bucket) := [(scnHex 119, scnBucket 119 2)]

/-- Target state equal to the live list (scenario A, no-op). -/
def scnTargetA : HistoryArchiveState :=
  ⟨[{ curr := scnHex 17, snap := scnHex 34 },
    { curr := scnHex 51, snap := scnHex 68 },
    { curr := scnHex 85, snap := scnHex 102 }]⟩

/-- Target state differing from the live list only in the coarsest level's
curr hash (scenario B). -/
def scnTargetB : HistoryArchiveState :=
  ⟨[{ curr := scnHex 17, snap := scnHex 34 },
    { curr := scnHex 51, snap := scnHex 68 },
    { curr := scnHex 119, snap := scnHex 102 }]⟩

/-- The initial world for the scenarios. -/
def scnApp : AppState := { bucketList := scnLevels, store := scnStore, db := 0, head := none }

/-- Expected world after a scenario-B run: level 2's curr replaced by the
pool bucket, its snap untouched, levels 1 and 0 rewritten (by cascade) with
the store copies of the same content, seven chunks applied, head installed. -/
def scnAppBFinal : AppState :=
  { scnApp with
    bucketList :=
      [{ curr := scnBucket 17 1, snap := scnBucket 34 1 },
       { curr := scnBucket 51 1, snap := scnBucket 68 2 },
       { curr := scnBucket 119 2, snap := scnBucket 102 1 }]
    db := 7
    head := some scnTargetB }

/-- Expected engine state after a scenario-B run: five started and five
succeeded events. -/
def scnWBFinal : ApplyBucketsWork :=
  ⟨scnPool, scnTargetB, true, 0, none, none, none, none, 5, 5, 0⟩

theorem applAlive_exhaustAppl (o : Option BucketApplicator) :
    applAlive (exhaustAppl o) = false := by
  cases o <;> simp [applAlive, exhaustAppl]

theorem pendingChunks_zero_iff (w : ApplyBucketsWork) :
    pendingChunks w = 0 ↔
      applAlive w.mSnapApplicator = false ∧ applAlive w.mCurrApplicator = false := by
  cases hs : w.mSnapApplicator <;> cases hc : w.mCurrApplicator <;>
    simp [pendingChunks, applAlive, hs, hc]

theorem applAlive_false_elim (a : BucketApplicator)
    (h : applAlive (some a) = false) : a = { mRemaining := 0 } := by
  rcases a with ⟨r⟩
  simp [applAlive] at h
  simp [h]

theorem exhaustAppl_of_dead (o : Option BucketApplicator)
    (h : applAlive o = false) : exhaustAppl o = o := by
  cases o with
  | none => rfl
  | some a => rw [applAlive_false_elim a h]; rfl

theorem exhaust_eq_self (w : ApplyBucketsWork) (h : pendingChunks w = 0) :
    exhaust w = w := by
  obtain ⟨h1, h2⟩ := (pendingChunks_zero_iff w).mp h
  unfold exhaust
  rw [exhaustAppl_of_dead _ h1, exhaustAppl_of_dead _ h2]

theorem onRun_of_exhausted (app : AppState) (w : ApplyBucketsWork)
    (h : pendingChunks w = 0) : w.onRun app = (app, w) := by
  obtain ⟨h1, h2⟩ := (pendingChunks_zero_iff w).mp h
  simp [ApplyBucketsWork.onRun, h1, h2]

theorem onSuccess_running_iff (app : AppState) (w : ApplyBucketsWork) :
    (w.onSuccess app).2.2 = .workRunning ↔
      (applAlive w.mSnapApplicator || applAlive w.mCurrApplicator) = true := by
  unfold ApplyBucketsWork.onSuccess
  split
  · simp_all
  · rename_i hcond
    simp only [Bool.not_eq_true] at hcond
    simp only [hcond]
    split <;> simp

theorem onSuccess_of_running (app : AppState) (w : ApplyBucketsWork)
    (h : (applAlive w.mSnapApplicator || applAlive w.mCurrApplicator) = true) :
    w.onSuccess app = (app, w, .workRunning) := by
  unfold ApplyBucketsWork.onSuccess
  simp [h]

theorem runLevelSteps_of_exhausted (n : Nat) (app : AppState) (w : ApplyBucketsWork)
    (h : pendingChunks w = 0) :
    runLevelSteps (n + 1) app w = w.onSuccess app := by
  have hal := (pendingChunks_zero_iff w).mp h
  simp only [runLevelSteps, onRun_of_exhausted app w h]
  rcases hr : w.onSuccess app with ⟨a2, w2, s⟩
  cases s
  · exfalso
    have : (w.onSuccess app).2.2 = .workRunning := by rw [hr]
    rw [onSuccess_running_iff] at this
    simp [hal.1, hal.2] at this
  · rfl
  · rfl

theorem onRun_snap (app : AppState) (w : ApplyBucketsWork)
    (hs : applAlive w.mSnapApplicator = true) :
    w.onRun app = ({ app with db := app.db + 1 },
      { w with mSnapApplicator := w.mSnapApplicator.map advanceAppl }) := by
  simp [ApplyBucketsWork.onRun, hs]

theorem onRun_curr (app : AppState) (w : ApplyBucketsWork)
    (hs : applAlive w.mSnapApplicator = false)
    (hc : applAlive w.mCurrApplicator = true) :
    w.onRun app = ({ app with db := app.db + 1 },
      { w with mCurrApplicator := w.mCurrApplicator.map advanceAppl }) := by
  simp [ApplyBucketsWork.onRun, hs, hc]

theorem pending_advance_snap (w : ApplyBucketsWork)
    (hs : applAlive w.mSnapApplicator = true) :
    pendingChunks { w with mSnapApplicator := w.mSnapApplicator.map advanceAppl } + 1 =
      pendingChunks w := by
  rcases ho : w.mSnapApplicator with _ | a
  · rw [ho] at hs; simp [applAlive] at hs
  · rcases a with ⟨r⟩
    rw [ho] at hs
    simp [applAlive] at hs
    cases hc : w.mCurrApplicator <;>
      simp [pendingChunks, ho, hc, advanceAppl] <;> omega

theorem pending_advance_curr (w : ApplyBucketsWork)
    (hc : applAlive w.mCurrApplicator = true) :
    pendingChunks { w with mCurrApplicator := w.mCurrApplicator.map advanceAppl } + 1 =
      pendingChunks w := by
  rcases ho : w.mCurrApplicator with _ | a
  · rw [ho] at hc; simp [applAlive] at hc
  · rcases a with ⟨r⟩
    rw [ho] at hc
    simp [applAlive] at hc
    cases hs : w.mSnapApplicator <;>
      simp [pendingChunks, ho, hs, advanceAppl] <;> omega

theorem exhaust_advance_snap (w : ApplyBucketsWork) :
    exhaust { w with mSnapApplicator := w.mSnapApplicator.map advanceAppl } =
      exhaust w := by
  cases ho : w.mSnapApplicator <;> simp [exhaust, exhaustAppl, ho]

theorem exhaust_advance_curr (w : ApplyBucketsWork) :
    exhaust { w with mCurrApplicator := w.mCurrApplicator.map advanceAppl } =
      exhaust w := by
  cases ho : w.mCurrApplicator <;> simp [exhaust, exhaustAppl, ho]

theorem runLevelSteps_eq_of_onRun (n : Nat) (app : AppState) (w : ApplyBucketsWork)
    (app1 : AppState) (w1 : ApplyBucketsWork)
    (hrun : w.onRun app = (app1, w1)) :
    runLevelSteps (n + 1) app w =
      match w1.onSuccess app1 with
      | (app2, w2, .workRunning) => runLevelSteps n app2 w2
      | r => r := by
  have hbase :
      runLevelSteps (n + 1) app w =
        match (w.onRun app).2.onSuccess (w.onRun app).1 with
        | (app2, w2, .workRunning) => runLevelSteps n app2 w2
        | r => r := rfl
  rw [hbase, hrun]

theorem runLevelSteps_spec :
    ∀ (n : Nat) (app : AppState) (w : ApplyBucketsWork), pendingChunks w ≤ n →
      runLevelSteps (n + 1) app w =
        ApplyBucketsWork.onSuccess { app with db := app.db + pendingChunks w }
          (exhaust w) := by
  intro n
  induction n with
  | zero =>
    intro app w h
    replace h : pendingChunks w = 0 := Nat.le_zero.mp h
    rw [runLevelSteps_of_exhausted 0 app w h, h, exhaust_eq_self w h]
    rfl
  | succ n ih =>
    intro app w h
    by_cases h0 : pendingChunks w = 0
    · rw [runLevelSteps_of_exhausted (n + 1) app w h0, h0, exhaust_eq_self w h0]
      rfl
    · -- one chunk is applied, then the loop continues on the advanced state
      have hstep : ∃ w', w.onRun app = ({ app with db := app.db + 1 }, w') ∧
          pendingChunks w' + 1 = pendingChunks w ∧ exhaust w' = exhaust w := by
        by_cases hs : applAlive w.mSnapApplicator = true
        · exact ⟨_, onRun_snap app w hs, pending_advance_snap w hs,
            exhaust_advance_snap w⟩
        · have hs' : applAlive w.mSnapApplicator = false := by
            simpa using hs
          have hc : applAlive w.mCurrApplicator = true := by
            rcases hcb : applAlive w.mCurrApplicator with _ | _
            · exact absurd ((pendingChunks_zero_iff w).mpr ⟨hs', hcb⟩) h0
            · rfl
          exact ⟨_, onRun_curr app w hs' hc, pending_advance_curr w hc,
            exhaust_advance_curr w⟩
      obtain ⟨w', hrun, hpend, hex⟩ := hstep
      rw [runLevelSteps_eq_of_onRun (n + 1) app w _ w' hrun]
      by_cases hz : pendingChunks w' = 0
      · -- the advanced state is exhausted: the evaluation commits right away
        have hp1 : pendingChunks w = 1 := by omega
        have hdead := (pendingChunks_zero_iff w').mp hz
        have hgoal : ApplyBucketsWork.onSuccess { app with db := app.db + 1 } w' =
            ApplyBucketsWork.onSuccess { app with db := app.db + pendingChunks w }
              (exhaust w) := by
          rw [hp1, ← hex, exhaust_eq_self w' hz]
        rcases hsu : ApplyBucketsWork.onSuccess { app with db := app.db + 1 } w' with
          ⟨a2, w2, s⟩
        have hs2 : s ≠ .workRunning := by
          intro hcon
          have hrr : (ApplyBucketsWork.onSuccess { app with db := app.db + 1 } w').2.2 =
              .workRunning := by rw [hsu, hcon]
          rw [onSuccess_running_iff] at hrr
          simp [hdead.1, hdead.2] at hrr
        rw [hsu] at hgoal
        cases s
        · exact absurd rfl hs2
        · show (a2, w2, WorkState.workPending) = _
          exact hgoal
        · show (a2, w2, WorkState.workSuccess) = _
          exact hgoal
      · -- the advanced state still has pending work: the evaluation keeps running
        have halive : (applAlive w'.mSnapApplicator || applAlive w'.mCurrApplicator)
            = true := by
          rcases hbs : applAlive w'.mSnapApplicator with _ | _
          · rcases hbc : applAlive w'.mCurrApplicator with _ | _
            · exact absurd ((pendingChunks_zero_iff w').mpr ⟨hbs, hbc⟩) hz
            · simp
          · simp
        rw [onSuccess_of_running { app with db := app.db + 1 } w' halive]
        show runLevelSteps (n + 1) { app with db := app.db + 1 } w' = _
        rw [ih { app with db := app.db + 1 } w' (by omega)]
        rw [hex]
        have harith : app.db + 1 + pendingChunks w' = app.db + pendingChunks w := by
          omega
        simp only [harith]

theorem runFrom_cycle (n : Nat) (app : AppState) (w : ApplyBucketsWork) :
    runFrom (n + 1) app w =
      match cycleResult app w with
      | .error e => .err e
      | .ok (app2, w2, .workPending) => runFrom n app2 w2
      | .ok (app2, w2, .workSuccess) => .done app2 w2
      | .ok (_, _, .workRunning) => .outOfFuel := by
  rcases hst : w.onStart app with e | ⟨app1, w1⟩
  · simp only [runFrom, cycleResult, hst]
  · simp only [runFrom, cycleResult, hst]
    rw [runLevelSteps_spec (pendingChunks w1) app1 w1 (Nat.le_refl _)]
    rcases ApplyBucketsWork.onSuccess
        { app1 with db := app1.db + pendingChunks w1 } (exhaust w1) with ⟨a2, w2, s⟩
    cases s <;> rfl

theorem getBucket_eq_of_mBuckets (w w' : ApplyBucketsWork)
    (h : w'.mBuckets = w.mBuckets) (store : List (Bin × Bucket)) (hash : String) :
    w'.getBucket store hash = w.getBucket store hash := by
  unfold ApplyBucketsWork.getBucket
  rw [h]

theorem getBucket_eq_resolveBucket (w : ApplyBucketsWork)
    (store : List (Bin × Bucket)) (hash : String) :
    w.getBucket store hash = resolveBucket w.mBuckets store hash := rfl

theorem set_getD_self {α : Type} [Inhabited α] (l : List α) (i : Nat) :
    l.set i (l.getD i default) = l := by
  rcases Nat.lt_or_ge i l.length with hin | hout
  · apply List.ext_getElem
    · simp
    · intro n h1 h2
      rcases eq_or_ne i n with he | hne
      · subst he
        simp only [List.getElem_set_self]
        rw [List.getD_eq_getElem l default h2]
      · rw [List.getElem_set_ne hne]
  · exact List.set_eq_of_length_le hout

theorem cycle_noop (app : AppState) (w : ApplyBucketsWork)
    (hsb : w.mSnapBucket = none) (hcb : w.mCurrBucket = none)
    (hsa : w.mSnapApplicator = none) (hca : w.mCurrApplicator = none)
    (hap : w.mApplying = false)
    (hs : ((w.mApplyState.currentBuckets.getD w.mLevel default).snap !=
        binToHex ((app.bucketList.getD w.mLevel default).snap.hash)) = false)
    (hc : ((w.mApplyState.currentBuckets.getD w.mLevel default).curr !=
        binToHex ((app.bucketList.getD w.mLevel default).curr.hash)) = false) :
    cycleResult app w =
      .ok (if w.mLevel = 0
           then ({ app with head := some w.mApplyState }, w, .workSuccess)
           else (app, { w with mLevel := w.mLevel - 1 }, .workPending)) := by
  obtain ⟨mB, mAS, mApp, mLev, msb, mcb, msa, mca, c1, c2, c3⟩ := w
  replace hsb : msb = none := hsb
  replace hcb : mcb = none := hcb
  replace hsa : msa = none := hsa
  replace hca : mca = none := hca
  replace hap : mApp = false := hap
  subst hsb hcb hsa hca hap
  dsimp only at hs hc
  simp only [cycleResult, ApplyBucketsWork.onStart, hs, hc, Bool.false_or,
    Bool.false_eq_true, if_false, pendingChunks, exhaust, exhaustAppl,
    Option.map_none', ApplyBucketsWork.onSuccess, applAlive, Bool.or_self,
    set_getD_self app.bucketList mLev, Nat.add_zero, ne_eq, ite_not]

theorem cycle_both (app : AppState) (w : ApplyBucketsWork) (bs bc : Bucket)
    (hsb : w.mSnapBucket = none) (hcb : w.mCurrBucket = none)
    (hsa : w.mSnapApplicator = none) (hca : w.mCurrApplicator = none)
    (htrig : (w.mApplying ||
        (w.mApplyState.currentBuckets.getD w.mLevel default).snap !=
          binToHex ((app.bucketList.getD w.mLevel default).snap.hash)) = true)
    (hgs : resolveBucket w.mBuckets app.store
        (w.mApplyState.currentBuckets.getD w.mLevel default).snap = .ok bs)
    (hgc : resolveBucket w.mBuckets app.store
        (w.mApplyState.currentBuckets.getD w.mLevel default).curr = .ok bc) :
    cycleResult app w =
      .ok (if w.mLevel = 0
           then ({ app with
                   bucketList := app.bucketList.set w.mLevel
                     { curr := bc, snap := bs }
                   db := app.db + (bs.nChunks + bc.nChunks)
                   head := some w.mApplyState },
                 { w with
                   mApplying := true
                   mBucketApplyStart := w.mBucketApplyStart + 1 + 1
                   mBucketApplySuccess := w.mBucketApplySuccess + 1 + 1 },
                 .workSuccess)
           else ({ app with
                   bucketList := app.bucketList.set w.mLevel
                     { curr := bc, snap := bs }
                   db := app.db + (bs.nChunks + bc.nChunks) },
                 { w with
                   mApplying := true
                   mLevel := w.mLevel - 1
                   mBucketApplyStart := w.mBucketApplyStart + 1 + 1
                   mBucketApplySuccess := w.mBucketApplySuccess + 1 + 1 },
                 .workPending)) := by
  obtain ⟨mB, mAS, mApp, mLev, msb, mcb, msa, mca, c1, c2, c3⟩ := w
  replace hsb : msb = none := hsb
  replace hcb : mcb = none := hcb
  replace hsa : msa = none := hsa
  replace hca : mca = none := hca
  subst hsb hcb hsa hca
  dsimp only at htrig hgs hgc
  simp only [cycleResult, ApplyBucketsWork.onStart, ApplyBucketsWork.getBucket,
    htrig, hgs, hgc, Bool.true_or, if_true, pendingChunks, exhaust, exhaustAppl,
    Option.map_some', mkApplicator, ApplyBucketsWork.onSuccess, applAlive,
    Bool.or_self, Bool.false_eq_true, if_false, Nat.add_zero, Nat.zero_add,
    ne_eq, ite_not, Nat.lt_irrefl, decide_False]

theorem cycle_curr_only (app : AppState) (w : ApplyBucketsWork) (bc : Bucket)
    (hsb : w.mSnapBucket = none) (hcb : w.mCurrBucket = none)
    (hsa : w.mSnapApplicator = none) (hca : w.mCurrApplicator = none)
    (hap : w.mApplying = false)
    (hs : ((w.mApplyState.currentBuckets.getD w.mLevel default).snap !=
        binToHex ((app.bucketList.getD w.mLevel default).snap.hash)) = false)
    (hc : ((w.mApplyState.currentBuckets.getD w.mLevel default).curr !=
        binToHex ((app.bucketList.getD w.mLevel default).curr.hash)) = true)
    (hgc : resolveBucket w.mBuckets app.store
        (w.mApplyState.currentBuckets.getD w.mLevel default).curr = .ok bc) :
    cycleResult app w =
      .ok (if w.mLevel = 0
           then ({ app with
                   bucketList := app.bucketList.set w.mLevel
                     { curr := bc,
                       snap := (app.bucketList.getD w.mLevel default).snap }
                   db := app.db + bc.nChunks
                   head := some w.mApplyState },
                 { w with
                   mApplying := true
                   mBucketApplyStart := w.mBucketApplyStart + 1
                   mBucketApplySuccess := w.mBucketApplySuccess + 1 },
                 .workSuccess)
           else ({ app with
                   bucketList := app.bucketList.set w.mLevel
                     { curr := bc,
                       snap := (app.bucketList.getD w.mLevel default).snap }
                   db := app.db + bc.nChunks },
                 { w with
                   mApplying := true
                   mLevel := w.mLevel - 1
                   mBucketApplyStart := w.mBucketApplyStart + 1
                   mBucketApplySuccess := w.mBucketApplySuccess + 1 },
                 .workPending)) := by
  obtain ⟨mB, mAS, mApp, mLev, msb, mcb, msa, mca, c1, c2, c3⟩ := w
  replace hsb : msb = none := hsb
  replace hcb : mcb = none := hcb
  replace hsa : msa = none := hsa
  replace hca : mca = none := hca
  replace hap : mApp = false := hap
  subst hsb hcb hsa hca hap
  dsimp only at hs hc hgc
  simp only [cycleResult, ApplyBucketsWork.onStart, ApplyBucketsWork.getBucket,
    hs, hc, hgc, Bool.false_or, Bool.false_eq_true, if_false, if_true,
    pendingChunks, exhaust, exhaustAppl, Option.map_some', Option.map_none',
    mkApplicator, ApplyBucketsWork.onSuccess, applAlive, Bool.or_self,
    Bool.or_false, Bool.false_or, Nat.add_zero, Nat.zero_add, ne_eq, ite_not,
    Nat.lt_irrefl, decide_False]

theorem cycle_err_snap (app : AppState) (w : ApplyBucketsWork) (e : BucketError)
    (htrig : (w.mApplying ||
        (w.mApplyState.currentBuckets.getD w.mLevel default).snap !=
          binToHex ((app.bucketList.getD w.mLevel default).snap.hash)) = true)
    (hgs : resolveBucket w.mBuckets app.store
        (w.mApplyState.currentBuckets.getD w.mLevel default).snap = .error e) :
    cycleResult app w = .error e := by
  simp only [cycleResult, ApplyBucketsWork.onStart, ApplyBucketsWork.getBucket,
    htrig, hgs, if_true]

theorem cycle_err_curr_both (app : AppState) (w : ApplyBucketsWork)
    (bs : Bucket) (e : BucketError)
    (htrig : (w.mApplying ||
        (w.mApplyState.currentBuckets.getD w.mLevel default).snap !=
          binToHex ((app.bucketList.getD w.mLevel default).snap.hash)) = true)
    (hgs : resolveBucket w.mBuckets app.store
        (w.mApplyState.currentBuckets.getD w.mLevel default).snap = .ok bs)
    (hgc : resolveBucket w.mBuckets app.store
        (w.mApplyState.currentBuckets.getD w.mLevel default).curr = .error e) :
    cycleResult app w = .error e := by
  simp only [cycleResult, ApplyBucketsWork.onStart, ApplyBucketsWork.getBucket,
    htrig, hgs, hgc, if_true, Bool.true_or]

theorem cycle_err_curr_only (app : AppState) (w : ApplyBucketsWork)
    (e : BucketError)
    (hap : w.mApplying = false)
    (hs : ((w.mApplyState.currentBuckets.getD w.mLevel default).snap !=
        binToHex ((app.bucketList.getD w.mLevel default).snap.hash)) = false)
    (hc : ((w.mApplyState.currentBuckets.getD w.mLevel default).curr !=
        binToHex ((app.bucketList.getD w.mLevel default).curr.hash)) = true)
    (hgc : resolveBucket w.mBuckets app.store
        (w.mApplyState.currentBuckets.getD w.mLevel default).curr = .error e) :
    cycleResult app w = .error e := by
  simp only [cycleResult, ApplyBucketsWork.onStart, ApplyBucketsWork.getBucket,
    hap, hs, hc, hgc, Bool.false_or, Bool.false_eq_true, if_false, if_true]

theorem getD_set_self {α : Type} [Inhabited α] (l : List α) (i : Nat) (a : α)
    (h : i < l.length) : (l.set i a).getD i default = a := by
  simp [List.getD_eq_getElem, List.getElem_set_self, h]

theorem getD_set_ne {α : Type} [Inhabited α] (l : List α) (i j : Nat) (a : α)
    (h : i ≠ j) : (l.set i a).getD j default = l.getD j default := by
  simp [List.getD, List.getElem?_set_ne h]

/-- Once the engine enters a level with the sticky cascading flag set and no
in-flight state, every remaining level (the current one included) ends the
run with both its snap and curr references replaced by the resolved target
buckets, and no coarser level is touched. -/
theorem runFrom_applying_replaces (mB : List (String × Bucket))
    (mAS : HistoryArchiveState) :
    ∀ (l : Nat) (app : AppState) (c1 c2 c3 : Nat) (app' : AppState)
      (w' : ApplyBucketsWork),
      l < app.bucketList.length →
      runFrom (l + 1) app ⟨mB, mAS, true, l, none, none, none, none, c1, c2, c3⟩ =
        .done app' w' →
      ((∀ m, m ≤ l →
          ∃ bs bc,
            resolveBucket mB app.store
              (mAS.currentBuckets.getD m default).snap = .ok bs ∧
            resolveBucket mB app.store
              (mAS.currentBuckets.getD m default).curr = .ok bc ∧
            app'.bucketList.getD m default = { curr := bc, snap := bs }) ∧
        (∀ m, l < m →
          app'.bucketList.getD m default = app.bucketList.getD m default)) := by
  intro l
  induction l with
  | zero =>
    intro app c1 c2 c3 app' w' hlen hrun
    rcases hgs : resolveBucket mB app.store
        ((mAS.currentBuckets.getD 0 default).snap) with e | bs
    · rw [runFrom_cycle,
        cycle_err_snap app ⟨mB, mAS, true, 0, none, none, none, none, c1, c2, c3⟩
          e (by simp) hgs] at hrun
      simp at hrun
    · rcases hgc : resolveBucket mB app.store
          ((mAS.currentBuckets.getD 0 default).curr) with e | bc
      · rw [runFrom_cycle,
          cycle_err_curr_both app
            ⟨mB, mAS, true, 0, none, none, none, none, c1, c2, c3⟩
            bs e (by simp) hgs hgc] at hrun
        simp at hrun
      · have hcy := cycle_both app
          ⟨mB, mAS, true, 0, none, none, none, none, c1, c2, c3⟩
          bs bc rfl rfl rfl rfl (by simp) hgs hgc
        dsimp only at hcy
        rw [if_pos rfl] at hcy
        rw [runFrom_cycle, hcy] at hrun
        dsimp only at hrun
        injection hrun with h1 h2
        subst h1
        constructor
        · intro m hm
          replace hm : m = 0 := Nat.le_zero.mp hm
          subst hm
          exact ⟨bs, bc, hgs, hgc, getD_set_self app.bucketList 0 _ hlen⟩
        · intro m hm
          exact getD_set_ne app.bucketList 0 m _ (Nat.ne_of_lt hm)
  | succ l ih =>
    intro app c1 c2 c3 app' w' hlen hrun
    rcases hgs : resolveBucket mB app.store
        ((mAS.currentBuckets.getD (l + 1) default).snap) with e | bs
    · rw [runFrom_cycle,
        cycle_err_snap app
          ⟨mB, mAS, true, l + 1, none, none, none, none, c1, c2, c3⟩
          e (by simp) hgs] at hrun
      simp at hrun
    · rcases hgc : resolveBucket mB app.store
          ((mAS.currentBuckets.getD (l + 1) default).curr) with e | bc
      · rw [runFrom_cycle,
          cycle_err_curr_both app
            ⟨mB, mAS, true, l + 1, none, none, none, none, c1, c2, c3⟩
            bs e (by simp) hgs hgc] at hrun
        simp at hrun
      · have hcy := cycle_both app
          ⟨mB, mAS, true, l + 1, none, none, none, none, c1, c2, c3⟩
          bs bc rfl rfl rfl rfl (by simp) hgs hgc
        dsimp only at hcy
        rw [if_neg (Nat.succ_ne_zero l)] at hcy
        rw [runFrom_cycle, hcy] at hrun
        dsimp only at hrun
        have hlen1 : l <
            ({ app with
               bucketList := app.bucketList.set (l + 1) { curr := bc, snap := bs }
               db := app.db + (bs.nChunks + bc.nChunks) } : AppState).bucketList.length := by
          simp only [List.length_set]
          omega
        obtain ⟨hrep, hfr⟩ := ih _ _ _ _ _ _ hlen1 hrun
        constructor
        · intro m hm
          rcases Nat.lt_or_ge m (l + 1) with hml | hmg
          · obtain ⟨bs', bc', hg1, hg2, hbl⟩ := hrep m (Nat.lt_succ_iff.mp hml)
            exact ⟨bs', bc', hg1, hg2, hbl⟩
          · have hmeq : m = l + 1 := Nat.le_antisymm hm hmg
            subst hmeq
            refine ⟨bs, bc, hgs, hgc, ?_⟩
            rw [hfr (l + 1) (Nat.lt_succ_self l)]
            exact getD_set_self app.bucketList (l + 1) _ hlen
        · intro m hm
          rw [hfr m (Nat.lt_of_succ_lt hm)]
          exact getD_set_ne app.bucketList (l + 1) m _ (Nat.ne_of_lt hm)

/-- Every level cycle of a clean engine state either aborts with a
resolution error or commits: it hands back a world with the same store and
head, touching at most the current level of the bucket list, and a clean
engine state one level finer (or reports success at level 0, installing the
head); the sticky flag never falls back to false. -/
theorem cycle_cases (app : AppState) (mB : List (String × Bucket))
    (mAS : HistoryArchiveState) (ap : Bool) (l c1 c2 c3 : Nat) :
    (∃ e, cycleResult app ⟨mB, mAS, ap, l, none, none, none, none, c1, c2, c3⟩ =
        .error e) ∨
    (∃ (app2 : AppState) (ap2 : Bool) (c1' c2' : Nat),
       app2.store = app.store ∧ app2.head = app.head ∧
       app2.bucketList.length = app.bucketList.length ∧
       (ap = true → ap2 = true) ∧
       (l ≠ 0 →
         cycleResult app ⟨mB, mAS, ap, l, none, none, none, none, c1, c2, c3⟩ =
           .ok (app2, ⟨mB, mAS, ap2, l - 1, none, none, none, none, c1', c2', c3⟩,
                .workPending)) ∧
       (l = 0 →
         cycleResult app ⟨mB, mAS, ap, l, none, none, none, none, c1, c2, c3⟩ =
           .ok ({ app2 with head := some mAS },
                ⟨mB, mAS, ap2, 0, none, none, none, none, c1', c2', c3⟩,
                .workSuccess))) := by
  by_cases htr : (ap ||
      ((mAS.currentBuckets.getD l default).snap !=
        binToHex ((app.bucketList.getD l default).snap.hash))) = true
  · rcases hgs : resolveBucket mB app.store
        ((mAS.currentBuckets.getD l default).snap) with e | bs
    · exact Or.inl ⟨e, cycle_err_snap app _ e htr hgs⟩
    · rcases hgc : resolveBucket mB app.store
          ((mAS.currentBuckets.getD l default).curr) with e | bc
      · exact Or.inl ⟨e, cycle_err_curr_both app _ bs e htr hgs hgc⟩
      · have hcy := cycle_both app
          ⟨mB, mAS, ap, l, none, none, none, none, c1, c2, c3⟩
          bs bc rfl rfl rfl rfl htr hgs hgc
        dsimp only at hcy
        refine Or.inr ⟨{ app with
            bucketList := app.bucketList.set l { curr := bc, snap := bs }
            db := app.db + (bs.nChunks + bc.nChunks) },
          true, c1 + 1 + 1, c2 + 1 + 1, rfl, rfl, by simp, fun _ => rfl,
          ?_, ?_⟩
        · intro h0
          rw [hcy, if_neg h0]
        · intro h0
          subst h0
          rw [hcy, if_pos rfl]
  · simp only [Bool.or_eq_true, not_or, Bool.not_eq_true] at htr
    obtain ⟨hapF, hsF⟩ := htr
    by_cases hbc : ((mAS.currentBuckets.getD l default).curr !=
        binToHex ((app.bucketList.getD l default).curr.hash)) = true
    · rcases hgc : resolveBucket mB app.store
          ((mAS.currentBuckets.getD l default).curr) with e | bc
      · exact Or.inl ⟨e, cycle_err_curr_only app _ e hapF hsF hbc hgc⟩
      · have hcy := cycle_curr_only app
          ⟨mB, mAS, ap, l, none, none, none, none, c1, c2, c3⟩
          bc rfl rfl rfl rfl hapF hsF hbc hgc
        dsimp only at hcy
        refine Or.inr ⟨{ app with
            bucketList := app.bucketList.set l
              { curr := bc, snap := (app.bucketList.getD l default).snap }
            db := app.db + bc.nChunks },
          true, c1 + 1, c2 + 1, rfl, rfl, by simp, fun _ => rfl, ?_, ?_⟩
        · intro h0
          rw [hcy, if_neg h0]
        · intro h0
          subst h0
          rw [hcy, if_pos rfl]
    · have hbcF : ((mAS.currentBuckets.getD l default).curr !=
          binToHex ((app.bucketList.getD l default).curr.hash)) = false := by
        simpa using hbc
      have hcy := cycle_noop app
        ⟨mB, mAS, ap, l, none, none, none, none, c1, c2, c3⟩
        rfl rfl rfl rfl hapF hsF hbcF
      dsimp only at hcy
      refine Or.inr ⟨app, ap, c1, c2, rfl, rfl, rfl, fun h => h, ?_, ?_⟩
      · intro h0
        rw [hcy, if_neg h0]
      · intro h0
        subst h0
        rw [hcy, if_pos rfl]

/-- On any completed run from a clean engine state, the installed head is
the target state, and the engine still carries that target. -/
theorem runFrom_head (mB : List (String × Bucket)) (mAS : HistoryArchiveState) :
    ∀ (n : Nat) (app : AppState) (ap : Bool) (l c1 c2 c3 : Nat)
      (app2 : AppState) (w2 : ApplyBucketsWork),
      runFrom n app ⟨mB, mAS, ap, l, none, none, none, none, c1, c2, c3⟩ =
        .done app2 w2 →
      app2.head = some mAS ∧ w2.mApplyState = mAS := by
  intro n
  induction n with
  | zero =>
    intro app ap l c1 c2 c3 app2 w2 h
    simp [runFrom] at h
  | succ n ih =>
    intro app ap l c1 c2 c3 app2 w2 h
    rw [runFrom_cycle] at h
    rcases cycle_cases app mB mAS ap l c1 c2 c3 with ⟨e, hcy⟩ |
      ⟨appc, apc, c1', c2', _, _, _, _, hpend, hsucc⟩
    · rw [hcy] at h
      simp at h
    · by_cases h0 : l = 0
      · rw [hsucc h0] at h
        dsimp only at h
        injection h with h1 h2
        subst h1 h2
        exact ⟨rfl, rfl⟩
      · rw [hpend h0] at h
        dsimp only at h
        exact ih appc apc (l - 1) c1' c2' c3 app2 w2 h

/-- A run over levels whose live hashes all match the target performs no
replacement at all: the engine walks down to level 0 with untouched world
state and counters, then installs the head. -/
theorem runFrom_noop (mB : List (String × Bucket)) (mAS : HistoryArchiveState) :
    ∀ (l : Nat) (app : AppState) (c1 c2 c3 : Nat),
      (∀ i, i ≤ l →
        ((mAS.currentBuckets.getD i default).snap !=
          binToHex ((app.bucketList.getD i default).snap.hash)) = false ∧
        ((mAS.currentBuckets.getD i default).curr !=
          binToHex ((app.bucketList.getD i default).curr.hash)) = false) →
      runFrom (l + 1) app ⟨mB, mAS, false, l, none, none, none, none, c1, c2, c3⟩ =
        .done { app with head := some mAS }
          ⟨mB, mAS, false, 0, none, none, none, none, c1, c2, c3⟩ := by
  intro l
  induction l with
  | zero =>
    intro app c1 c2 c3 hmatch
    have hcy := cycle_noop app ⟨mB, mAS, false, 0, none, none, none, none, c1, c2, c3⟩
      rfl rfl rfl rfl rfl (hmatch 0 (Nat.le_refl 0)).1 (hmatch 0 (Nat.le_refl 0)).2
    dsimp only at hcy
    rw [if_pos rfl] at hcy
    rw [runFrom_cycle, hcy]
  | succ l ih =>
    intro app c1 c2 c3 hmatch
    have hcy := cycle_noop app
      ⟨mB, mAS, false, l + 1, none, none, none, none, c1, c2, c3⟩
      rfl rfl rfl rfl rfl
      (hmatch (l + 1) (Nat.le_refl _)).1 (hmatch (l + 1) (Nat.le_refl _)).2
    dsimp only at hcy
    rw [if_neg (Nat.succ_ne_zero l)] at hcy
    rw [runFrom_cycle, hcy]
    dsimp only
    exact ih app c1 c2 c3 (fun i hi => hmatch i (Nat.le_succ_of_le hi))

/-- Entry form of the cascade: a run from a clean, not-yet-applying engine
that completes replaces, below any mismatching level L, both buckets of
every finer level with the resolved target buckets. -/
theorem runFrom_cascade (mB : List (String × Bucket)) (mAS : HistoryArchiveState) :
    ∀ (l : Nat) (app : AppState) (c1 c2 c3 : Nat) (app2 : AppState)
      (w2 : ApplyBucketsWork),
      l < app.bucketList.length →
      runFrom (l + 1) app ⟨mB, mAS, false, l, none, none, none, none, c1, c2, c3⟩ =
        .done app2 w2 →
      ∀ L Lp, Lp < L → L ≤ l →
      ((mAS.currentBuckets.getD L default).snap ≠
          binToHex ((app.bucketList.getD L default).snap.hash) ∨
       (mAS.currentBuckets.getD L default).curr ≠
          binToHex ((app.bucketList.getD L default).curr.hash)) →
      ∃ bs bc,
        resolveBucket mB app.store
          (mAS.currentBuckets.getD Lp default).snap = .ok bs ∧
        resolveBucket mB app.store
          (mAS.currentBuckets.getD Lp default).curr = .ok bc ∧
        app2.bucketList.getD Lp default = { curr := bc, snap := bs } := by
  intro l
  induction l with
  | zero =>
    intro app c1 c2 c3 app2 w2 hlen hrun L Lp hLp hL hmis
    omega
  | succ l ih =>
    intro app c1 c2 c3 app2 w2 hlen hrun L Lp hLp hL hmis
    by_cases hbs : ((mAS.currentBuckets.getD (l + 1) default).snap !=
        binToHex ((app.bucketList.getD (l + 1) default).snap.hash)) = true
    · -- the snap check triggers at level l+1: the whole remainder cascades
      rcases hgs : resolveBucket mB app.store
          ((mAS.currentBuckets.getD (l + 1) default).snap) with e | bs
      · rw [runFrom_cycle,
          cycle_err_snap app
            ⟨mB, mAS, false, l + 1, none, none, none, none, c1, c2, c3⟩
            e (by simpa using hbs) hgs] at hrun
        simp at hrun
      · rcases hgc : resolveBucket mB app.store
            ((mAS.currentBuckets.getD (l + 1) default).curr) with e | bc
        · rw [runFrom_cycle,
            cycle_err_curr_both app
              ⟨mB, mAS, false, l + 1, none, none, none, none, c1, c2, c3⟩
              bs e (by simpa using hbs) hgs hgc] at hrun
          simp at hrun
        · have hcy := cycle_both app
            ⟨mB, mAS, false, l + 1, none, none, none, none, c1, c2, c3⟩
            bs bc rfl rfl rfl rfl (by simpa using hbs) hgs hgc
          dsimp only at hcy
          rw [if_neg (Nat.succ_ne_zero l)] at hcy
          rw [runFrom_cycle, hcy] at hrun
          dsimp only at hrun
          have hlen1 : l <
              ({ app with
                 bucketList := app.bucketList.set (l + 1) { curr := bc, snap := bs }
                 db := app.db + (bs.nChunks + bc.nChunks) } : AppState).bucketList.length := by
            simp only [List.length_set]
            omega
          obtain ⟨hrep, _⟩ :=
            runFrom_applying_replaces mB mAS l _ _ _ _ _ _ hlen1 hrun
          obtain ⟨bs', bc', hg1, hg2, hbl⟩ := hrep Lp (by omega)
          exact ⟨bs', bc', hg1, hg2, hbl⟩
    · have hbsF : ((mAS.currentBuckets.getD (l + 1) default).snap !=
          binToHex ((app.bucketList.getD (l + 1) default).snap.hash)) = false := by
        simpa using hbs
      by_cases hbc : ((mAS.currentBuckets.getD (l + 1) default).curr !=
          binToHex ((app.bucketList.getD (l + 1) default).curr.hash)) = true
      · -- only the curr check triggers at level l+1; the cascade still starts
        rcases hgc : resolveBucket mB app.store
            ((mAS.currentBuckets.getD (l + 1) default).curr) with e | bc
        · rw [runFrom_cycle,
            cycle_err_curr_only app
              ⟨mB, mAS, false, l + 1, none, none, none, none, c1, c2, c3⟩
              e rfl hbsF hbc hgc] at hrun
          simp at hrun
        · have hcy := cycle_curr_only app
            ⟨mB, mAS, false, l + 1, none, none, none, none, c1, c2, c3⟩
            bc rfl rfl rfl rfl rfl hbsF hbc hgc
          dsimp only at hcy
          rw [if_neg (Nat.succ_ne_zero l)] at hcy
          rw [runFrom_cycle, hcy] at hrun
          dsimp only at hrun
          have hlen1 : l <
              ({ app with
                 bucketList := app.bucketList.set (l + 1)
                   { curr := bc, snap := (app.bucketList.getD (l + 1) default).snap }
                 db := app.db + bc.nChunks } : AppState).bucketList.length := by
            simp only [List.length_set]
            omega
          obtain ⟨hrep, _⟩ :=
            runFrom_applying_replaces mB mAS l _ _ _ _ _ _ hlen1 hrun
          obtain ⟨bs', bc', hg1, hg2, hbl⟩ := hrep Lp (by omega)
          exact ⟨bs', bc', hg1, hg2, hbl⟩
      · -- level l+1 already matches: it cannot be the mismatching level L
        have hbcF : ((mAS.currentBuckets.getD (l + 1) default).curr !=
            binToHex ((app.bucketList.getD (l + 1) default).curr.hash)) = false := by
          simpa using hbc
        have hcy := cycle_noop app
          ⟨mB, mAS, false, l + 1, none, none, none, none, c1, c2, c3⟩
          rfl rfl rfl rfl rfl hbsF hbcF
        dsimp only at hcy
        rw [if_neg (Nat.succ_ne_zero l)] at hcy
        rw [runFrom_cycle, hcy] at hrun
        dsimp only at hrun
        have hLne : L ≠ l + 1 := by
          intro hEq
          subst hEq
          rcases hmis with hm | hm
        
          · exact hm (by simpa using hbsF)
          · exact hm (by simpa using hbcF)
        exact ih app c1 c2 c3 app2 w2 (by omega) hrun L Lp hLp (by omega) hmis

theorem onStart_ok_fst (app : AppState) (w : ApplyBucketsWork)
    (p : AppState × ApplyBucketsWork) (h : w.onStart app = .ok p) : p.1 = app := by
  simp only [ApplyBucketsWork.onStart] at h
  split at h
  · exact absurd h (by simp)
  · split at h
    · split at h
      · exact absurd h (by simp)
      · injection h with h1
        subst h1
        rfl
    · injection h with h1
      subst h1
      rfl

theorem onSuccess_head_cases (app : AppState) (w : ApplyBucketsWork) :
    ((w.onSuccess app).1.head = app.head ∧ (w.onSuccess app).2.2 ≠ .workSuccess) ∨
    ((w.onSuccess app).1.head = some w.mApplyState ∧
      (w.onSuccess app).2.2 = .workSuccess ∧ w.mLevel = 0 ∧
      applAlive w.mSnapApplicator = false ∧
      applAlive w.mCurrApplicator = false) := by
  unfold ApplyBucketsWork.onSuccess
  split
  · exact Or.inl ⟨rfl, by simp⟩
  · rename_i hcond
    have hcond2 : (applAlive w.mSnapApplicator || applAlive w.mCurrApplicator)
        = false := by simpa using hcond
    obtain ⟨ha1, ha2⟩ := Bool.or_eq_false_iff.mp hcond2
    dsimp only
    split
    · exact Or.inl ⟨rfl, by simp⟩
    · rename_i hlev
      have hl0 : w.mLevel = 0 := by simpa using hlev
      exact Or.inr ⟨rfl, rfl, hl0, ha1, ha2⟩

/-- C2: resolving any non-zero hash absent from both the caller-supplied
pool and the persistent store aborts with the distinguished missing-bucket
error — no default bucket is substituted — and a run that attempts the
resolution (here: the sticky flag is set, so the level's snap is resolved)
terminates immediately with that error rather than retrying. -/
theorem claim_C2_missing_fatal (w : ApplyBucketsWork) (store : List (Bin × Bucket))
    (hash : String) (bin : Bin)
    (hdec : hexToBin256 hash = some bin) (hz : isZero bin = false)
    (hpool : lookupPool w.mBuckets hash = none)
    (hstore : lookupStore store bin = none) :
    w.getBucket store hash = .error .missingBucket ∧
    (∀ b, w.getBucket store hash ≠ .ok b) ∧
    (∀ (mAS : HistoryArchiveState) (app : AppState) (l n c1 c2 c3 : Nat),
      app.store = store →
      (mAS.currentBuckets.getD l default).snap = hash →
      runFrom (n + 1) app
        ⟨w.mBuckets, mAS, true, l, none, none, none, none, c1, c2, c3⟩ =
        .err .missingBucket) := by
  have hres : resolveBucket w.mBuckets store hash = .error .missingBucket := by
    simp [resolveBucket, hdec, hz, hpool, hstore]
  refine ⟨hres, ?_, ?_⟩
  · intro b hb
    rw [getBucket_eq_resolveBucket, hres] at hb
    exact absurd hb (by simp)
  · intro mAS app l n c1 c2 c3 hstoreEq hhash
    rw [runFrom_cycle,
      cycle_err_snap app ⟨w.mBuckets, mAS, true, l, none, none, none, none, c1, c2, c3⟩
        .missingBucket (by simp)
        (by rw [hstoreEq, hhash]; exact hres)]

/-- C2 witness: the hash `"99"…` is non-zero, absent from the scenario pool
and store; resolution fails fatally and a run attempting it aborts. -/
theorem claim_C2_missing_fatal_witness :
    (mkApplyBucketsWork 3 scnPool scnTargetB).getBucket scnStore (scnHex 153) =
      .error .missingBucket :=
  (claim_C2_missing_fatal (mkApplyBucketsWork 3 scnPool scnTargetB) scnStore
    (scnHex 153) (List.replicate 32 153) (by decide) (by decide) (by decide)
    (by decide)).1

/-- C4: a step invocation never modifies the BucketList; while either
applicator still has remaining work the success evaluation returns
`WORK_RUNNING` with the world and engine unchanged; and whenever the
evaluation changes the bucket list, both applicators were exhausted and the
result is an end-of-level transition (not `WORK_RUNNING`). -/
theorem claim_C4_commit_atomicity (app : AppState) (w : ApplyBucketsWork) :
    ((w.onRun app).1.bucketList = app.bucketList) ∧
    ((applAlive w.mSnapApplicator || applAlive w.mCurrApplicator) = true →
      w.onSuccess app = (app, w, .workRunning)) ∧
    (∀ app2 w2 s, w.onSuccess app = (app2, w2, s) →
      app2.bucketList ≠ app.bucketList →
      applAlive w.mSnapApplicator = false ∧ applAlive w.mCurrApplicator = false ∧
      s ≠ .workRunning) := by
  refine ⟨?_, fun h => onSuccess_of_running app w h, ?_⟩
  · unfold ApplyBucketsWork.onRun
    split
    · rfl
    · split <;> rfl
  · intro app2 w2 s hsu hne
    rcases hb : (applAlive w.mSnapApplicator || applAlive w.mCurrApplicator) with _ | _
    · obtain ⟨h1, h2⟩ := Bool.or_eq_false_iff.mp hb
      refine ⟨h1, h2, fun hsr => ?_⟩
      subst hsr
      have hrr : (w.onSuccess app).2.2 = .workRunning := by rw [hsu]
      rw [onSuccess_running_iff, hb] at hrr
      exact absurd hrr (by simp)
    · rw [onSuccess_of_running app w hb] at hsu
      injection hsu with h1 _
      exact absurd (congrArg AppState.bucketList h1.symm) hne

/-- C4 witness: with a live snap applicator the evaluation reports
`WORK_RUNNING` and leaves world and engine untouched. -/
theorem claim_C4_commit_atomicity_witness :
    (⟨scnPool, scnTargetB, true, 2, none, none, some ⟨1⟩, none, 1, 0, 0⟩ :
      ApplyBucketsWork).onSuccess scnApp =
      (scnApp,
       ⟨scnPool, scnTargetB, true, 2, none, none, some ⟨1⟩, none, 1, 0, 0⟩,
       .workRunning) :=
  (claim_C4_commit_atomicity scnApp
    ⟨scnPool, scnTargetB, true, 2, none, none, some ⟨1⟩, none, 1, 0, 0⟩).2.1
    (by decide)

/-- C5: each step invocation advances at most one applicator by exactly one
bounded chunk, snap strictly prioritized: while the snap applicator has
remaining work only it advances (curr untouched); only once snap is
exhausted does curr advance; with both exhausted the step is a no-op; at
most one database chunk is written per invocation. -/
theorem claim_C5_step_order (app : AppState) (w : ApplyBucketsWork) :
    (applAlive w.mSnapApplicator = true →
      w.onRun app = ({ app with db := app.db + 1 },
        { w with mSnapApplicator := w.mSnapApplicator.map advanceAppl })) ∧
    (applAlive w.mSnapApplicator = false → applAlive w.mCurrApplicator = true →
      w.onRun app = ({ app with db := app.db + 1 },
        { w with mCurrApplicator := w.mCurrApplicator.map advanceAppl })) ∧
    (applAlive w.mSnapApplicator = false → applAlive w.mCurrApplicator = false →
      w.onRun app = (app, w)) ∧
    (w.onRun app).1.db ≤ app.db + 1 := by
  refine ⟨onRun_snap app w, onRun_curr app w, ?_, ?_⟩
  · intro h1 h2
    exact onRun_of_exhausted app w ((pendingChunks_zero_iff w).mpr ⟨h1, h2⟩)
  · unfold ApplyBucketsWork.onRun
    split
    · exact Nat.le_refl _
    · split
      · exact Nat.le_refl _
      · exact Nat.le_succ _

/-- C5 witness: with both applicators live, one step consumes one chunk of
the snap applicator only. -/
theorem claim_C5_step_order_witness :
    (⟨scnPool, scnTargetB, true, 2, none, none, some ⟨2⟩, some ⟨3⟩, 0, 0, 0⟩ :
      ApplyBucketsWork).onRun scnApp =
      ({ scnApp with db := 1 },
       ⟨scnPool, scnTargetB, true, 2, none, none, some ⟨1⟩, some ⟨3⟩, 0, 0, 0⟩) :=
  (claim_C5_step_order scnApp
    ⟨scnPool, scnTargetB, true, 2, none, none, some ⟨2⟩, some ⟨3⟩, 0, 0, 0⟩).1
    (by decide)

/-- C6: a reset puts the cursor back to the coarsest level N−1, clears the
sticky cascading flag, drops the four in-flight references, and leaves the
world — every level of the live BucketList included — as well as the pool,
the target state and the counters unchanged. -/
theorem claim_C6_reset_safety (kNumLevels : Nat) (app : AppState)
    (w : ApplyBucketsWork) :
    (w.onReset kNumLevels app).1 = app ∧
    (w.onReset kNumLevels app).2.mLevel = kNumLevels - 1 ∧
    (w.onReset kNumLevels app).2.mApplying = false ∧
    (w.onReset kNumLevels app).2.mSnapBucket = none ∧
    (w.onReset kNumLevels app).2.mCurrBucket = none ∧
    (w.onReset kNumLevels app).2.mSnapApplicator = none ∧
    (w.onReset kNumLevels app).2.mCurrApplicator = none ∧
    (w.onReset kNumLevels app).2.mBuckets = w.mBuckets ∧
    (w.onReset kNumLevels app).2.mApplyState = w.mApplyState ∧
    (w.onReset kNumLevels app).2.mBucketApplyStart = w.mBucketApplyStart ∧
    (w.onReset kNumLevels app).2.mBucketApplySuccess = w.mBucketApplySuccess ∧
    (w.onReset kNumLevels app).2.mBucketApplyFailure = w.mBucketApplyFailure :=
  ⟨rfl, rfl, rfl, rfl, rfl, rfl, rfl, rfl, rfl, rfl, rfl, rfl⟩

/-- C8: any hash-hex input that decodes to the all-zero hash resolves to the
canonical fresh empty bucket, for every pool and every store — so no pool or
store lookup can influence (or be needed for) the result. -/
theorem claim_C8_zero_sentinel (w : ApplyBucketsWork) (store : List (Bin × Bucket))
    (hash : String) (bin : Bin)
    (hdec : hexToBin256 hash = some bin) (hz : isZero bin = true) :
    w.getBucket store hash = .ok Bucket.empty := by
  rw [getBucket_eq_resolveBucket]
  simp [resolveBucket, hdec, hz]

/-- C8 witness: the 64-zero hex string resolves to the empty bucket against
the scenario pool and store. -/
theorem claim_C8_zero_sentinel_witness :
    (mkApplyBucketsWork 3 scnPool scnTargetB).getBucket scnStore
      (String.mk (List.replicate 64 '0')) = .ok Bucket.empty :=
  claim_C8_zero_sentinel (mkApplyBucketsWork 3 scnPool scnTargetB) scnStore
    (String.mk (List.replicate 64 '0')) zeroHash (by decide) (by decide)

/-- C10: hash equality is hex-text equality: a target string that differs
textually from the canonical (lowercase) rendering of the live bucket's
binary hash is a mismatch for the start-of-level test even when it decodes
to the very same binary hash; and since the pool is keyed by the exact text,
such a string misses the pool and falls through to the binary-keyed store. -/
theorem claim_C10_hex_text_equality (s : String) (bin : Bin)
    (pool : List (String × Bucket)) (store : List (Bin × Bucket)) (bStore : Bucket)
    (hdec : hexToBin256 s = some bin)
    (hne : s ≠ binToHex bin)
    (hz : isZero bin = false)
    (hpool : lookupPool pool s = none)
    (hstore : lookupStore store bin = some bStore) :
    ((s != binToHex bin) = true) ∧
    resolveBucket pool store s = .ok bStore := by
  constructor
  · exact bne_iff_ne.mpr hne
  · simp [resolveBucket, hdec, hz, hpool, hstore]

/-- C10 witness: the upper-case rendering of the `aa…` hash decodes to the
same binary value yet registers as a mismatch, misses a pool keyed by the
lower-case text, and is served by the binary-keyed store instead. -/
theorem claim_C10_hex_text_equality_witness :
    ((String.mk (List.replicate 64 'A') != binToHex (List.replicate 32 170)) = true) ∧
    resolveBucket [(scnHex 170, scnBucket 170 5)]
      [(List.replicate 32 170, scnBucket 170 7)]
      (String.mk (List.replicate 64 'A')) = .ok (scnBucket 170 7) :=
  claim_C10_hex_text_equality (String.mk (List.replicate 64 'A'))
    (List.replicate 32 170) [(scnHex 170, scnBucket 170 5)]
    [(List.replicate 32 170, scnBucket 170 7)] (scnBucket 170 7)
    (by decide) (by decide) (by decide) (by decide) (by decide)

/-- C1: in any completed run, if at some level L the live snap or curr hash
(as text) differs from the target pair, then every finer level L′ < L ends
the run with both its snap and its curr bucket equal to the resolved target
buckets — even when the live hashes at L′ already matched the target — the
replacement being carried by the sticky cascading-apply flag. -/
theorem claim_C1_cascade (kN : Nat) (pool : List (String × Bucket))
    (tgt : HistoryArchiveState) (app app2 : AppState) (w2 : ApplyBucketsWork)
    (L Lp : Nat)
    (hlen : app.bucketList.length = kN)
    (hL : L < kN) (hLp : Lp < L)
    (hmis : (tgt.currentBuckets.getD L default).snap ≠
        binToHex ((app.bucketList.getD L default).snap.hash) ∨
      (tgt.currentBuckets.getD L default).curr ≠
        binToHex ((app.bucketList.getD L default).curr.hash))
    (hrun : runWork app (mkApplyBucketsWork kN pool tgt) = .done app2 w2) :
    ∃ bs bc,
      resolveBucket pool app.store (tgt.currentBuckets.getD Lp default).snap =
        .ok bs ∧
      resolveBucket pool app.store (tgt.currentBuckets.getD Lp default).curr =
        .ok bc ∧
      app2.bucketList.getD Lp default = { curr := bc, snap := bs } := by
  have hrun2 : runFrom ((kN - 1) + 1) app
      ⟨pool, tgt, false, kN - 1, none, none, none, none, 0, 0, 0⟩ =
      .done app2 w2 := hrun
  exact runFrom_cascade pool tgt (kN - 1) app 0 0 0 app2 w2 (by omega) hrun2
    L Lp hLp (by omega) hmis

/-- C1 witness: in scenario B (mismatch at the coarsest level 2), level 0
ends the run with both buckets replaced by the resolved target buckets. -/
theorem claim_C1_cascade_witness :
    ∃ bs bc,
      resolveBucket scnPool scnApp.store
        (scnTargetB.currentBuckets.getD 0 default).snap = .ok bs ∧
      resolveBucket scnPool scnApp.store
        (scnTargetB.currentBuckets.getD 0 default).curr = .ok bc ∧
      scnAppBFinal.bucketList.getD 0 default = { curr := bc, snap := bs } :=
  claim_C1_cascade 3 scnPool scnTargetB scnApp scnAppBFinal scnWBFinal 2 0
    (by decide) (by decide) (by decide) (by decide) (by decide)

/-- C3: the head changes exactly at the single commit point.  The step hook
never changes the head; a successful start-of-level hands the world back
unchanged; the success evaluation changes the head only when both
applicators are exhausted at level cursor 0, installing the target state and
reporting success; and every completed run has installed the target as head,
whose (curr, snap) hash pair at each index equals the target's entry. -/
theorem claim_C3_single_commit (app : AppState) (w : ApplyBucketsWork) :
    ((w.onRun app).1.head = app.head) ∧
    (∀ p, w.onStart app = .ok p → p.1.head = app.head) ∧
    (∀ app2 w2 s, w.onSuccess app = (app2, w2, s) →
      app2.head ≠ app.head →
      s = .workSuccess ∧ w.mLevel = 0 ∧
      applAlive w.mSnapApplicator = false ∧ applAlive w.mCurrApplicator = false ∧
      app2.head = some w.mApplyState) ∧
    (∀ (n : Nat) (app0 : AppState) (mB : List (String × Bucket))
      (mAS : HistoryArchiveState) (ap : Bool) (l c1 c2 c3 : Nat)
      (app2 : AppState) (w2 : ApplyBucketsWork),
      runFrom n app0 ⟨mB, mAS, ap, l, none, none, none, none, c1, c2, c3⟩ =
        .done app2 w2 →
      app2.head = some mAS ∧
      ∀ i, ((app2.head.getD default).currentBuckets.getD i default) =
        (mAS.currentBuckets.getD i default)) := by
  refine ⟨?_, ?_, ?_, ?_⟩
  · unfold ApplyBucketsWork.onRun
    split
    · rfl
    · split <;> rfl
  · intro p hp
    rw [onStart_ok_fst app w p hp]
  · intro app2 w2 s hsu hne
    rcases onSuccess_head_cases app w with ⟨hh, _⟩ | ⟨hh, hst, hl0, ha1, ha2⟩
    · rw [hsu] at hh
      exact absurd hh hne
    · rw [hsu] at hh hst
      exact ⟨hst, hl0, ha1, ha2, hh⟩
  · intro n app0 mB mAS ap l c1 c2 c3 app2 w2 hrun
    obtain ⟨hh, _⟩ := runFrom_head mB mAS n app0 ap l c1 c2 c3 app2 w2 hrun
    refine ⟨hh, ?_⟩
    intro i
    rw [hh]
    rfl

/-- C3 witness: after the scenario-B run the head is the target state and
agrees with it at every index. -/
theorem claim_C3_single_commit_witness :
    scnAppBFinal.head = some scnTargetB ∧
    ∀ i, ((scnAppBFinal.head.getD default).currentBuckets.getD i default) =
      (scnTargetB.currentBuckets.getD i default) :=
  (claim_C3_single_commit scnApp (mkApplyBucketsWork 3 scnPool scnTargetB)).2.2.2
    3 scnApp scnPool scnTargetB false 2 0 0 0 scnAppBFinal scnWBFinal (by decide)

/-- C7: when the live bucket list already carries the target hashes at every
level, the run completes with zero started and zero succeeded events, no
applicator surviving, the bucket list untouched, and the head installed to
that same target state. -/
theorem claim_C7_noop_idempotence (kN : Nat) (pool : List (String × Bucket))
    (tgt : HistoryArchiveState) (app : AppState)
    (hpos : 0 < kN)
    (hmatch : ∀ i, i < kN →
      (tgt.currentBuckets.getD i default).snap =
        binToHex ((app.bucketList.getD i default).snap.hash) ∧
      (tgt.currentBuckets.getD i default).curr =
        binToHex ((app.bucketList.getD i default).curr.hash)) :
    runWork app (mkApplyBucketsWork kN pool tgt) =
      .done { app with head := some tgt }
        ⟨pool, tgt, false, 0, none, none, none, none, 0, 0, 0⟩ := by
  have hm : ∀ i, i ≤ kN - 1 →
      ((tgt.currentBuckets.getD i default).snap !=
        binToHex ((app.bucketList.getD i default).snap.hash)) = false ∧
      ((tgt.currentBuckets.getD i default).curr !=
        binToHex ((app.bucketList.getD i default).curr.hash)) = false := by
    intro i hi
    obtain ⟨h1, h2⟩ := hmatch i (by omega)
    constructor
    · rw [h1]
      simp
    · rw [h2]
      simp
  exact runFrom_noop pool tgt (kN - 1) app 0 0 0 hm

/-- C7 witness: scenario A — the live list equals the target at all three
levels; the run ends with untouched world, zero events and head installed. -/
theorem claim_C7_noop_idempotence_witness :
    runWork scnApp (mkApplyBucketsWork 3 [] scnTargetA) =
      .done { scnApp with head := some scnTargetA }
        ⟨[], scnTargetA, false, 0, none, none, none, none, 0, 0, 0⟩ :=
  claim_C7_noop_idempotence 3 [] scnTargetA scnApp (by decide) (by decide)

/-- C9: scenario B — with three levels and only the coarsest level's target
curr hash differing from the live structure, the run replaces exactly five
buckets (level 2's curr but not its snap; both buckets of levels 1 and 0 by
cascade), firing five started and five succeeded events, applying seven
chunks, and installing the target head. -/
theorem claim_C9_curr_only_cascade :
    runWork scnApp (mkApplyBucketsWork 3 scnPool scnTargetB) =
      .done scnAppBFinal scnWBFinal := by
  decide

end Stellar
